import Mathlib

/-!
Verification of the trust-region policy optimization core of `pgtorch`
(`proj/algorithms/trpo.py`, `tnpg.py`, `natural.py`, `vanilla.py`).

Scalar values flowing through `line_search` and `f_barrier` are Python
floats; what matters for the claims is exact finite arithmetic together
with the IEEE-754 propagation and comparison behaviour of `nan`, `inf`
and `-inf` (e.g. `nan >= x` is `False`).  We embed such scalars as
`PFloat`: an exact rational for the finite case plus the three special
values, with the IEEE rules for arithmetic and comparisons.  Rounding
and overflow of binary floats are not modelled; all decimal literals of
the source (`0.8`, `0.1`, `1e-7`, ...) are taken at their exact decimal
value.
-/

/-- Scalar model of a Python float: an exact rational, or one of the
IEEE special values `nan`, `inf` (positive infinity), `ninf` (negative
infinity). -/
inductive PFloat where
  | nan : PFloat
  | inf : PFloat
  | ninf : PFloat
  | fin : ℚ → PFloat
deriving DecidableEq

namespace PFloat

/-- IEEE addition on the embedded floats. -/
def addP : PFloat → PFloat → PFloat
  | nan, _ => nan
  | _, nan => nan
  | inf, ninf => nan
  | ninf, inf => nan
  | inf, _ => inf
  | _, inf => inf
  | ninf, _ => ninf
  | _, ninf => ninf
  | fin a, fin b => fin (a + b)

/-- IEEE negation. -/
def negP : PFloat → PFloat
  | nan => nan
  | inf => ninf
  | ninf => inf
  | fin a => fin (-a)

/-- IEEE subtraction. -/
def subP (a b : PFloat) : PFloat := addP a (negP b)

/-- IEEE multiplication (`inf * 0 = nan`, signs as usual). -/
def mulP : PFloat → PFloat → PFloat
  | nan, _ => nan
  | _, nan => nan
  | inf, inf => inf
  | inf, ninf => ninf
  | ninf, inf => ninf
  | ninf, ninf => inf
  | inf, fin b => if 0 < b then inf else if b < 0 then ninf else nan
  | fin a, inf => if 0 < a then inf else if a < 0 then ninf else nan
  | ninf, fin b => if 0 < b then ninf else if b < 0 then inf else nan
  | fin a, ninf => if 0 < a then ninf else if a < 0 then inf else nan
  | fin a, fin b => fin (a * b)

/-- IEEE `<=` comparison: any comparison involving `nan` is false. -/
def leP : PFloat → PFloat → Bool
  | nan, _ => false
  | _, nan => false
  | _, inf => true
  | inf, _ => false
  | ninf, _ => true
  | _, ninf => false
  | fin a, fin b => decide (a ≤ b)

/-- IEEE `<` comparison: any comparison involving `nan` is false. -/
def ltP : PFloat → PFloat → Bool
  | nan, _ => false
  | _, nan => false
  | inf, _ => false
  | _, inf => true
  | ninf, ninf => false
  | ninf, _ => true
  | _, ninf => false
  | fin a, fin b => decide (a < b)

/-- IEEE `>=` comparison (as used by `expected_improvement >= atol` and
the Armijo test in `line_search`). -/
def geP (a b : PFloat) : Bool := leP b a

/-- Natural power, modelling Python's `backtrack_ratio ** exp`. -/
def powP (p : PFloat) : ℕ → PFloat
  | 0 => fin 1
  | n + 1 => mulP (powP p n) p

end PFloat

/-! ### Parameter vectors and the line search of `trpo.py` -/

/-- A flattened parameter (or gradient) vector, as produced by
`parameters_to_vector`. -/
abbrev Vec := List PFloat

/-- Elementwise scalar multiplication, modelling `ratio * dx`. -/
def scalMulP (r : PFloat) (v : Vec) : Vec := v.map (fun x => PFloat.mulP r x)

/-- Elementwise subtraction, modelling `x0 - ratio * dx`. -/
def vecSubP (a b : Vec) : Vec := List.zipWith PFloat.subP a b

/-- Dot product of two flat vectors, modelling `pol_grad.dot(descent_step)`:
the sum of the elementwise products. -/
def dotP (a b : Vec) : PFloat :=
  (List.zipWith PFloat.mulP a b).foldl PFloat.addP (PFloat.fin 0)

/-- Candidate parameter vector tried at backtrack exponent `k`
(from `trpo.py::line_search`): `x = x0 - backtrack_ratio ** exp * dx`. -/
def lsCand (x0 dx : Vec) (br : PFloat) (k : ℕ) : Vec :=
  vecSubP x0 (scalMulP (PFloat.powP br k) dx)

/-- The acceptance test of the backtracking loop in `trpo.py::line_search`:
`actual_improvement >= expected_improvement * ratio * accept_ratio`
with `actual_improvement = y0 - f(x)` and `ratio = backtrack_ratio ** exp`. -/
def lsAccept (f : Vec → PFloat) (x0 dx : Vec) (expd y0 ar br : PFloat) (k : ℕ) : Bool :=
  PFloat.geP (PFloat.subP y0 (f (lsCand x0 dx br k)))
    (PFloat.mulP (PFloat.mulP expd (PFloat.powP br k)) ar)

/-- The backtracking loop `for exp in range(max_backtracks)` of
`trpo.py::line_search`, started at exponent `k` with `r` iterations left.
Returns the list of candidate vectors passed to `f` (in call order) and,
if some candidate passed the acceptance test, that candidate together
with the two values logged as `ExpectedImprovement` and
`ActualImprovement` on the accepting branch. -/
def lsLoop (f : Vec → PFloat) (x0 dx : Vec) (expd y0 ar br : PFloat) :
    ℕ → ℕ → List Vec × Option (Vec × PFloat × PFloat)
  | _, 0 => ([], none)
  | k, r + 1 =>
    if lsAccept f x0 dx expd y0 ar br k then
      ([lsCand x0 dx br k],
       some (lsCand x0 dx br k,
             PFloat.mulP expd (PFloat.powP br k),
             PFloat.subP y0 (f (lsCand x0 dx br k))))
    else
      let rest := lsLoop f x0 dx expd y0 ar br (k + 1) r
      (lsCand x0 dx br k :: rest.1, rest.2)

/-- Result record of one `line_search` call: the returned parameter
vector, the candidate vectors at which `f` was evaluated inside the
backtracking loop (in order), and the values logged under
`ExpectedImprovement` and `ActualImprovement`.  (The third logged key,
`ImprovementRatio`, is the quotient of the two modelled values, or `0`
on the rejecting path, and is not modelled separately.) -/
structure LSOut where
  result : Vec
  evals : List Vec
  logExpected : PFloat
  logActual : PFloat

/-- Model of `trpo.py::line_search`.  The loop runs only when
`expected_improvement >= atol`; if no candidate is accepted (or the loop
is skipped) the function returns `x0` and logs `ActualImprovement = 0`.
When `y0` is `none`, Python computes `y0 = f(x0)`; this pre-loop call is
not part of `evals`, which records the loop's candidate evaluations. -/
def line_search (f : Vec → PFloat) (x0 dx : Vec) (expd : PFloat) (y0 : Option PFloat)
    (ar br : PFloat) (maxBacktracks : ℕ) (atol : PFloat) : LSOut :=
  let y0v := y0.getD (f x0)
  if PFloat.geP expd atol then
    let out := lsLoop f x0 dx expd y0v ar br 0 maxBacktracks
    match out.2 with
    | some (x, le, la) => ⟨x, out.1, le, la⟩
    | none => ⟨x0, out.1, expd, PFloat.fin 0⟩
  else ⟨x0, [], expd, PFloat.fin 0⟩

/-- `line_search` at its default keyword arguments
`accept_ratio=0.1, backtrack_ratio=0.8, max_backtracks=15, atol=1e-7`,
with `y0` supplied (as in the call inside `trpo`). -/
def lineSearchD (f : Vec → PFloat) (x0 dx : Vec) (expd y0 : PFloat) : LSOut :=
  line_search f x0 dx expd (some y0) (PFloat.fin (1 / 10)) (PFloat.fin (4 / 5)) 15
    (PFloat.fin (1 / 10000000))

/-- Model of `trpo.py::f_barrier`: the surrogate loss at `params` when the
mean KL divergence against the `old_dists` snapshot is below `delta`, and
`float('inf')` otherwise.  The network evaluation is abstracted into the
functions `surr` (the surrogate loss `-mean(likelihood_ratios * advs)` as
a function of the flat parameter vector) and `avgKl` (the realized mean
KL divergence `kl(old_dists, new_dists).mean()` as a function of the flat
parameter vector); both are evaluated over the full batch `all_obs`. -/
def f_barrier (surr avgKl : Vec → PFloat) (delta : PFloat) (params : Vec) : PFloat :=
  if PFloat.ltP (avgKl params) delta then surr params else PFloat.inf

/-- The update phase of one `trpo` iteration with `linesearch=True`:
`expected_improvement = pol_grad.dot(descent_step)`,
`new_params = line_search(f_barrier, params, descent_step,
expected_improvement, y0=surr_loss.item())` where `surr_loss` is the
surrogate loss at the current parameters `x0`.  The returned `.result`
is what `vector_to_parameters` then writes into the policy. -/
def trpoUpdateLS (surr avgKl : Vec → PFloat) (delta : PFloat)
    (pol_grad descent_step x0 : Vec) : LSOut :=
  lineSearchD (f_barrier surr avgKl delta) x0 descent_step
    (dotP pol_grad descent_step) (surr x0)

/-- Acceptance conditions exactly as the specification phrases them, for
the candidate at backtrack exponent `k` (defaults `ratio = 0.8`,
`accept_ratio = 0.1`): (i) the realized KL divergence of the candidate is
below `delta`, and (ii) the realized objective improvement is at least
`accept_ratio * ratio^k` times the predicted improvement `expd`.
Stated over the model's scalars so it can be compared with the code's
`lsAccept` test on `f_barrier`. -/
def specAccept (surr avgKl : Vec → PFloat) (delta : PFloat) (x0 dx : Vec)
    (expd y0 : PFloat) (k : ℕ) : Bool :=
  PFloat.ltP (avgKl (lsCand x0 dx (PFloat.fin (4 / 5)) k)) delta &&
  PFloat.geP (PFloat.subP y0 (surr (lsCand x0 dx (PFloat.fin (4 / 5)) k)))
    (PFloat.mulP (PFloat.mulP expd (PFloat.powP (PFloat.fin (4 / 5)) k)) (PFloat.fin (1 / 10)))

/-! ### Models for the sibling algorithm variants and the bookkeeping -/

/-- Model of the parameter commit of one `tnpg.py` iteration:
`vector_to_parameters(flat_params - descent_step, policy.parameters())`.
The step is written unconditionally — no KL divergence is consulted
anywhere between computing `descent_step` and committing it (the
`line_search` stub in `tnpg.py` is never called). -/
def tnpgCommit (flat_params descent_step : List ℚ) : List ℚ :=
  List.zipWith (fun a b => a - b) flat_params descent_step

/-- Instance data for the C4 counterexample: a concrete realized-KL
function (sum of squares of the parameter vector — nonnegative, zero at
the old parameters). -/
def klProbe (v : List ℚ) : ℚ := (v.map (fun x => x * x)).foldl (· + ·) 0

/-- Instance data for the C8 counterexample: a surrogate loss that is
`0` at the old parameters `[0]` and overflows to `-inf` at any other
parameter vector. -/
def surrCex : Vec → PFloat :=
  fun v => if v = [PFloat.fin 0] then PFloat.fin 0 else PFloat.ninf

/-- The scale computation shared verbatim by `trpo.py` and `tnpg.py`:
`scale = torch.sqrt(2.0 * delta * (1. / (descent_direction.dot(F_0(descent_direction))) + 1e-8))`,
as a function of the trust-region budget `delta` (named `step_size` in
`tnpg.py`) and the curvature scalar `q = dᵀF₀d`. -/
noncomputable def scale (delta q : ℝ) : ℝ := Real.sqrt (2 * delta * (1 / q + 1e-8))

/-- Modelled from the spec: the scale factor as the specification words
it, `s = sqrt(2·δ / (dᵀFd + ε))`, for comparison with the code's
`scale`. -/
noncomputable def scaleSpec (delta q : ℝ) : ℝ := Real.sqrt (2 * delta / (q + 1e-8))

/-- The subsampling step of `trpo.py` (observations abstracted as their
indices into the batch): when `kl_frac < 1`, keep the observations at the
first `int(kl_frac * len(all_obs))` indices of a random permutation
`perm` of the index range (`torch.randperm(len(all_obs))[:n_samples]`
followed by `index_select`); otherwise keep the full batch.  `F_0` (via
`fisher_vec_prod`) computes the KL curvature over this set. -/
def subsampObs (kl_frac : ℚ) (all_obs : List ℕ) (perm : List ℕ) : List ℕ :=
  if kl_frac < 1 then
    (perm.take (Int.toNat ⌊kl_frac * all_obs.length⌋)).filterMap
      (fun i => all_obs.get? i)
  else all_obs

/-- The observation set over which `f_barrier` evaluates the new
distributions and the realized KL divergence: the full batch `all_obs`
(`policy.dists(all_obs)` and `kl(old_dists, new_dists)` with `old_dists`
taken over `all_obs`). -/
def fBarrierObs (all_obs : List ℕ) : List ℕ := all_obs

/-- Dot product of rational vectors (exact arithmetic model of the
tensor contractions inside the autograd Hessian-vector product). -/
def dotQ (a b : List ℚ) : ℚ := (List.zipWith (· * ·) a b).foldl (· + ·) 0

/-- Matrix-vector product. -/
def matVec (H : List (List ℚ)) (v : List ℚ) : List ℚ :=
  H.map (fun row => dotQ row v)

/-- Model of `F_0` in `tnpg.py`: autograd differentiates the scalar
`(flat_grads * v).sum()` — with `flat_grads` the gradient of the mean KL
over the observation subsample — a second time, which yields exactly the
KL-Hessian-vector product `H·v` (`H` being the Hessian of the mean KL at
the current parameters, a function of the subsample and the policy
state, kept abstract here); the code then adds the damping term
`v * 1e-3`. -/
def F_0 (H : List (List ℚ)) (v : List ℚ) : List ℚ :=
  List.zipWith (· + ·) (matVec H v) (v.map (fun x => x * (1 / 1000)))

/-- From `tnpg.py`: the snapshot written during iteration `iter` passes
`snapshot_saver.save_state(iter, dict(..., last_iter=last_iter, ...))` —
the `last_iter` stored is the value of the function argument
`last_iter`, not the index of the iteration being saved. -/
def tnpgSavedLastIter (last_iter _iter : ℤ) : ℤ := last_iter

/-- From `tnpg.py`: the index under which the snapshot of iteration
`iter` is saved. -/
def tnpgSnapshotIndex (_last_iter iter : ℤ) : ℤ := iter

/-- From `vanilla.py` (and likewise `trpo.py` and `natural.py`): the
snapshot written during iteration `updt` stores `last_iter=updt`. -/
def vanillaSavedLastIter (updt : ℤ) : ℤ := updt

/-- From `vanilla.py`: `logger.save_state(updt+1, ...)` — the snapshot
of iteration `updt` is saved under index `updt + 1`, which is exactly
where the restore path `logger.get_state(last_iter+1)` looks when
resuming with `last_iter = updt`. -/
def vanillaSnapshotIndex (updt : ℤ) : ℤ := updt + 1

/-- The first iteration executed after a (re)start: the training loops
run `trange(last_iter + 1, n_iter)`. -/
def resumeStart (last_iter : ℤ) : ℤ := last_iter + 1

/-- Modelled from the spec: `SnapshotSaver` (file `proj/utils/saver.py`,
absent from the sources; the spec's checkpoint collaborator contract)
persists state blobs by index and reloads them bit-for-bit. -/
def saverSave {β : Type} (store : ℤ → Option β) (idx : ℤ) (blob : β) :
    ℤ → Option β :=
  fun i => if i = idx then some blob else store i

/-- The value logged as `TotalNSamples` after iteration `updt` of
`trpo`: `(updt+1) * (batch - (batch % n_envs))`. -/
def totalNSamples (updt batch n_envs : ℕ) : ℕ :=
  (updt + 1) * (batch - batch % n_envs)

/-! ## Theorems -/

namespace PFloat

theorem powP_fin (q : ℚ) : ∀ n : ℕ, powP (fin q) n = fin (q ^ n) := by
  intro n
  induction n with
  | zero => simp [powP]
  | succ n ih => simp [powP, ih, mulP, pow_succ]

theorem geP_nan_right (t : PFloat) : geP nan t = false := by
  cases t <;> rfl

theorem geP_ninf_inf : geP ninf inf = false := rfl

theorem geP_ninf_fin (q : ℚ) : geP ninf (fin q) = false := rfl

theorem subP_inf_cases (y0 : PFloat) : subP y0 inf = nan ∨ subP y0 inf = ninf := by
  cases y0 <;> simp [subP, negP, addP]

theorem addP_nan_left (x : PFloat) : addP nan x = nan := by
  cases x <;> rfl

theorem addP_nan_right (x : PFloat) : addP x nan = nan := by
  cases x <;> rfl

theorem mulP_nan_left (x : PFloat) : mulP nan x = nan := by
  cases x <;> rfl

theorem mulP_nan_right (x : PFloat) : mulP x nan = nan := by
  cases x <;> rfl

/-- Cases of `expd >= a` (with `a` finite) being true. -/
theorem geP_fin_cases (expd : PFloat) (a : ℚ) (h : geP expd (fin a) = true) :
    expd = inf ∨ ∃ e : ℚ, expd = fin e ∧ a ≤ e := by
  cases expd with
  | nan => simp [geP, leP] at h
  | inf => exact Or.inl rfl
  | ninf => simp [geP, leP] at h
  | fin e => exact Or.inr ⟨e, rfl, by simpa [geP, leP] using h⟩

/-- Multiplying `inf` by a positive finite value gives `inf`. -/
theorem mulP_inf_pos (q : ℚ) (h : 0 < q) : mulP inf (fin q) = inf := by
  simp [mulP, h]

theorem mulP_fin_fin (a b : ℚ) : mulP (fin a) (fin b) = fin (a * b) := rfl

end PFloat

/-! ### Structural lemmas about the backtracking loop -/

theorem cons_map_range {α : Type} (g : ℕ → α) (k r : ℕ) :
    g k :: (List.range r).map (fun i => g (k + 1 + i))
      = (List.range (r + 1)).map (fun i => g (k + i)) := by
  rw [List.range_succ_eq_map]
  simp only [List.map_cons, List.map_map, Nat.add_zero, List.cons.injEq, true_and]
  apply List.map_congr_left
  intro a _
  simp only [Function.comp]
  congr 1
  omega

/-- If every exponent tried in a window is rejected, the loop evaluates
all candidates of the window in order and accepts none. -/
theorem lsLoop_none (f : Vec → PFloat) (x0 dx : Vec) (expd y0 ar br : PFloat) :
    ∀ r k, (∀ i, i < r → lsAccept f x0 dx expd y0 ar br (k + i) = false) →
      lsLoop f x0 dx expd y0 ar br k r
        = ((List.range r).map (fun i => lsCand x0 dx br (k + i)), none) := by
  intro r
  induction r with
  | zero => intro k _; rfl
  | succ r ih =>
    intro k h
    have h0 : lsAccept f x0 dx expd y0 ar br k = false := by
      have := h 0 (Nat.succ_pos r)
      simpa using this
    have hrest := ih (k + 1) (fun i hi => by
      have e : k + 1 + i = k + (i + 1) := by omega
      rw [e]
      exact h (i + 1) (by omega))
    simp only [lsLoop, h0, Bool.false_eq_true, if_false, hrest]
    exact Prod.ext (cons_map_range (fun j => lsCand x0 dx br j) k r) rfl

/-- If the first accepted exponent in a window is `k + i`, the loop
evaluates exactly the candidates `k, k+1, ..., k+i` in order and returns
the candidate at `k + i` together with its two logged values. -/
theorem lsLoop_first (f : Vec → PFloat) (x0 dx : Vec) (expd y0 ar br : PFloat) :
    ∀ i r k, i < r →
      lsAccept f x0 dx expd y0 ar br (k + i) = true →
      (∀ j, j < i → lsAccept f x0 dx expd y0 ar br (k + j) = false) →
      lsLoop f x0 dx expd y0 ar br k r
        = ((List.range (i + 1)).map (fun j => lsCand x0 dx br (k + j)),
           some (lsCand x0 dx br (k + i),
                 PFloat.mulP expd (PFloat.powP br (k + i)),
                 PFloat.subP y0 (f (lsCand x0 dx br (k + i))))) := by
  intro i
  induction i with
  | zero =>
    intro r k hr hacc _
    obtain ⟨r', rfl⟩ : ∃ r', r = r' + 1 := ⟨r - 1, by omega⟩
    have hacc' : lsAccept f x0 dx expd y0 ar br k = true := by simpa using hacc
    simp [lsLoop, hacc', List.range_succ]
  | succ i ih =>
    intro r k hr hacc hmin
    obtain ⟨r', rfl⟩ : ∃ r', r = r' + 1 := ⟨r - 1, by omega⟩
    have h0 : lsAccept f x0 dx expd y0 ar br k = false := by
      have := hmin 0 (Nat.succ_pos i)
      simpa using this
    have hrest := ih r' (k + 1) (by omega)
      (by
        have e : k + 1 + i = k + (i + 1) := by omega
        rw [e]; exact hacc)
      (fun j hj => by
        have e : k + 1 + j = k + (j + 1) := by omega
        rw [e]; exact hmin (j + 1) (by omega))
    simp only [lsLoop, h0, Bool.false_eq_true, if_false, hrest]
    have hidx : k + 1 + i = k + (i + 1) := by omega
    rw [hidx]
    exact Prod.ext (cons_map_range (fun j => lsCand x0 dx br j) k (i + 1)) rfl

/-- Any accepted result of the loop is some candidate that passed the
acceptance test. -/
theorem lsLoop_some_accept (f : Vec → PFloat) (x0 dx : Vec) (expd y0 ar br : PFloat) :
    ∀ r k x le la, (lsLoop f x0 dx expd y0 ar br k r).2 = some (x, le, la) →
      ∃ j, x = lsCand x0 dx br j ∧ lsAccept f x0 dx expd y0 ar br j = true := by
  intro r
  induction r with
  | zero => intro k x le la h; simp [lsLoop] at h
  | succ r ih =>
    intro k x le la h
    by_cases hacc : lsAccept f x0 dx expd y0 ar br k = true
    · refine ⟨k, ?_, hacc⟩
      simp [lsLoop, hacc] at h
      exact h.1.symm
    · rw [lsLoop] at h
      simp only [Bool.not_eq_true] at hacc
      simp only [hacc, Bool.false_eq_true, if_false] at h
      exact ih (k + 1) x le la h

/-! ### The barrier keeps KL-violating candidates out of the accepted set -/

/-- Shape of the Armijo threshold `expd * ratio^k * accept_ratio` at the
default constants once the loop guard `expd >= atol` has passed:
either `inf` or a strictly positive finite value. -/
theorem thresh_shape (expd : PFloat) (k : ℕ)
    (h : PFloat.geP expd (PFloat.fin (1 / 10000000)) = true) :
    PFloat.mulP (PFloat.mulP expd (PFloat.powP (PFloat.fin (4 / 5)) k)) (PFloat.fin (1 / 10))
        = PFloat.inf ∨
      ∃ t : ℚ, 0 < t ∧
        PFloat.mulP (PFloat.mulP expd (PFloat.powP (PFloat.fin (4 / 5)) k)) (PFloat.fin (1 / 10))
          = PFloat.fin t := by
  have hp : PFloat.powP (PFloat.fin (4 / 5)) k = PFloat.fin ((4 / 5 : ℚ) ^ k) :=
    PFloat.powP_fin _ k
  have hppos : (0 : ℚ) < (4 / 5 : ℚ) ^ k := by positivity
  rcases PFloat.geP_fin_cases expd _ h with hinf | ⟨e, rfl, he⟩
  · subst hinf
    rw [hp, PFloat.mulP_inf_pos _ hppos, PFloat.mulP_inf_pos _ (by norm_num)]
    exact Or.inl rfl
  · rw [hp, PFloat.mulP_fin_fin, PFloat.mulP_fin_fin]
    refine Or.inr ⟨_, ?_, rfl⟩
    have he' : (0 : ℚ) < e := lt_of_lt_of_le (by norm_num) he
    positivity

/-- If the candidate's realized KL is not below `delta`, `f_barrier`
returns `inf` and the code's acceptance test rejects it (given the loop
guard passed, so the threshold is `inf` or finite positive). -/
theorem lsAccept_false_of_kl_high (surr avgKl : Vec → PFloat) (delta : PFloat)
    (x0 dx : Vec) (expd y0 : PFloat) (k : ℕ)
    (hexp : PFloat.geP expd (PFloat.fin (1 / 10000000)) = true)
    (hkl : PFloat.ltP (avgKl (lsCand x0 dx (PFloat.fin (4 / 5)) k)) delta = false) :
    lsAccept (f_barrier surr avgKl delta) x0 dx expd y0 (PFloat.fin (1 / 10))
      (PFloat.fin (4 / 5)) k = false := by
  unfold lsAccept
  have hb : f_barrier surr avgKl delta (lsCand x0 dx (PFloat.fin (4 / 5)) k) = PFloat.inf := by
    unfold f_barrier
    rw [hkl]
    rfl
  rw [hb]
  rcases PFloat.subP_inf_cases y0 with hs | hs <;> rw [hs]
  · exact PFloat.geP_nan_right _
  · rcases thresh_shape expd k hexp with ht | ⟨t, _, ht⟩ <;> rw [ht]
    · exact PFloat.geP_ninf_inf
    · exact PFloat.geP_ninf_fin t

/-- Given the loop guard `expd >= atol` has passed, the code's acceptance
test on `f_barrier` coincides with the specification's two conditions
(KL ceiling and Armijo condition on the surrogate loss). -/
theorem lsAccept_eq_specAccept (surr avgKl : Vec → PFloat) (delta : PFloat)
    (x0 dx : Vec) (expd y0 : PFloat) (k : ℕ)
    (hexp : PFloat.geP expd (PFloat.fin (1 / 10000000)) = true) :
    lsAccept (f_barrier surr avgKl delta) x0 dx expd y0 (PFloat.fin (1 / 10))
        (PFloat.fin (4 / 5)) k
      = specAccept surr avgKl delta x0 dx expd y0 k := by
  cases hkl : PFloat.ltP (avgKl (lsCand x0 dx (PFloat.fin (4 / 5)) k)) delta with
  | false =>
    rw [lsAccept_false_of_kl_high surr avgKl delta x0 dx expd y0 k hexp hkl]
    unfold specAccept
    rw [hkl]
    rfl
  | true =>
    unfold lsAccept specAccept f_barrier
    rw [hkl]
    simp

theorem ltP_nan_left (d : PFloat) : PFloat.ltP PFloat.nan d = false := by
  cases d <;> rfl

theorem ltP_inf_left (d : PFloat) : PFloat.ltP PFloat.inf d = false := by
  cases d <;> rfl

/-- C9: for every call to `line_search` in which the supplied
`expected_improvement` is below `atol` (default `1e-7`) — in particular
whenever the predicted improvement is zero or negative — the backtracking
loop is skipped entirely: `f` is never called on a perturbed parameter
vector (`evals = []`), the original `x0` is returned, and
`ActualImprovement` is logged as `0`. -/
theorem line_search_below_atol_returns_x0 (f : Vec → PFloat) (x0 dx : Vec)
    (e : ℚ) (y0 : PFloat) (h : e < 1 / 10000000) :
    (lineSearchD f x0 dx (PFloat.fin e) y0).result = x0 ∧
    (lineSearchD f x0 dx (PFloat.fin e) y0).evals = [] ∧
    (lineSearchD f x0 dx (PFloat.fin e) y0).logActual = PFloat.fin 0 := by
  have hg : PFloat.geP (PFloat.fin e) (PFloat.fin (1 / 10000000)) = false := by
    simp only [PFloat.geP, PFloat.leP, decide_eq_false_iff_not, not_le]
    exact h
  unfold lineSearchD line_search
  simp only [Option.getD_some]
  rw [hg]
  exact ⟨rfl, rfl, rfl⟩

/-- Witness for C9 at `expected_improvement = 0`. -/
theorem line_search_below_atol_witness :
    (0 : ℚ) < 1 / 10000000 ∧
    (lineSearchD (fun _ => PFloat.fin 0) [PFloat.fin 1] [PFloat.fin 1]
        (PFloat.fin 0) (PFloat.fin 0)).result = [PFloat.fin 1] ∧
    (lineSearchD (fun _ => PFloat.fin 0) [PFloat.fin 1] [PFloat.fin 1]
        (PFloat.fin 0) (PFloat.fin 0)).evals = [] :=
  ⟨by norm_num,
   (line_search_below_atol_returns_x0 (fun _ => PFloat.fin 0) [PFloat.fin 1] [PFloat.fin 1]
      0 (PFloat.fin 0) (by norm_num)).1,
   (line_search_below_atol_returns_x0 (fun _ => PFloat.fin 0) [PFloat.fin 1] [PFloat.fin 1]
      0 (PFloat.fin 0) (by norm_num)).2.1⟩

/-- C3: if no backtrack candidate satisfies both the KL ceiling and the
Armijo condition, `line_search` returns the original parameter vector
`x0` unchanged, so the policy parameters written back by
`vector_to_parameters` equal their values before the update phase, and
zero actual improvement is logged.  The model is a total function, so no
error is raised. -/
theorem trpo_no_acceptable_backtrack_unchanged (surr avgKl : Vec → PFloat)
    (delta : PFloat) (pol_grad dx x0 : Vec)
    (h : ∀ j, j < 15 →
      specAccept surr avgKl delta x0 dx (dotP pol_grad dx) (surr x0) j = false) :
    (trpoUpdateLS surr avgKl delta pol_grad dx x0).result = x0 ∧
    (trpoUpdateLS surr avgKl delta pol_grad dx x0).logActual = PFloat.fin 0 := by
  unfold trpoUpdateLS lineSearchD line_search
  simp only [Option.getD_some]
  cases hg : PFloat.geP (dotP pol_grad dx) (PFloat.fin (1 / 10000000)) with
  | false =>
    exact ⟨rfl, rfl⟩
  | true =>
    have hnone := lsLoop_none (f_barrier surr avgKl delta) x0 dx (dotP pol_grad dx)
      (surr x0) (PFloat.fin (1 / 10)) (PFloat.fin (4 / 5)) 15 0 (fun i hi => by
        rw [lsAccept_eq_specAccept surr avgKl delta x0 dx (dotP pol_grad dx) (surr x0)
          (0 + i) hg]
        rw [Nat.zero_add]
        exact h i hi)
    rw [hnone]
    exact ⟨rfl, rfl⟩

/-- Witness for C3 with the KL budget `delta` set to `0`: every realized
KL value (here constantly `1`, a nonnegative KL) fails the strict ceiling
`avg_kl < 0`, so no candidate is accepted. -/
theorem trpo_no_acceptable_backtrack_witness :
    (trpoUpdateLS (fun _ => PFloat.fin 0) (fun _ => PFloat.fin 1) (PFloat.fin 0)
        [PFloat.fin 1] [PFloat.fin 1] [PFloat.fin 0]).result = [PFloat.fin 0] ∧
    (trpoUpdateLS (fun _ => PFloat.fin 0) (fun _ => PFloat.fin 1) (PFloat.fin 0)
        [PFloat.fin 1] [PFloat.fin 1] [PFloat.fin 0]).logActual = PFloat.fin 0 :=
  ⟨(trpo_no_acceptable_backtrack_unchanged (fun _ => PFloat.fin 0) (fun _ => PFloat.fin 1)
      (PFloat.fin 0) [PFloat.fin 1] [PFloat.fin 1] [PFloat.fin 0] (by decide)).1,
   (trpo_no_acceptable_backtrack_unchanged (fun _ => PFloat.fin 0) (fun _ => PFloat.fin 1)
      (PFloat.fin 0) [PFloat.fin 1] [PFloat.fin 1] [PFloat.fin 0] (by decide)).2⟩

/-- C2 (amended): for every call of the trust-region line search whose
`expected_improvement` passes the `atol` guard, candidates are tried in
the order `k = 0, 1, ...` (candidate `k` being `x0 - ratio^k * dx` with
`ratio = 0.8`, so `k = 0` is the full step), and the first candidate
satisfying both the KL ceiling and the Armijo condition is returned; the
`evals` list certifies that exactly the candidates `0, ..., k0` were
evaluated, in order.  In particular for `k0 = 0` the full step is
returned after a single candidate evaluation. -/
theorem line_search_returns_first_satisfying (surr avgKl : Vec → PFloat)
    (delta : PFloat) (x0 dx : Vec) (expd y0 : PFloat) (k0 : ℕ)
    (hexp : PFloat.geP expd (PFloat.fin (1 / 10000000)) = true)
    (hk : k0 < 15)
    (hacc : specAccept surr avgKl delta x0 dx expd y0 k0 = true)
    (hmin : ∀ j, j < k0 → specAccept surr avgKl delta x0 dx expd y0 j = false) :
    (lineSearchD (f_barrier surr avgKl delta) x0 dx expd y0).result
        = lsCand x0 dx (PFloat.fin (4 / 5)) k0 ∧
    (lineSearchD (f_barrier surr avgKl delta) x0 dx expd y0).evals
        = (List.range (k0 + 1)).map (fun j => lsCand x0 dx (PFloat.fin (4 / 5)) j) := by
  have hfirst := lsLoop_first (f_barrier surr avgKl delta) x0 dx expd y0
    (PFloat.fin (1 / 10)) (PFloat.fin (4 / 5)) k0 15 0 hk
    (by
      rw [lsAccept_eq_specAccept surr avgKl delta x0 dx expd y0 (0 + k0) hexp,
        Nat.zero_add]
      exact hacc)
    (fun j hj => by
      rw [lsAccept_eq_specAccept surr avgKl delta x0 dx expd y0 (0 + j) hexp,
        Nat.zero_add]
      exact hmin j hj)
  unfold lineSearchD line_search
  simp only [Option.getD_some]
  rw [hexp, hfirst]
  simp only [Nat.zero_add]
  exact ⟨rfl, rfl⟩

theorem PFloat.subP_fin_fin (a b : ℚ) :
    PFloat.subP (PFloat.fin a) (PFloat.fin b) = PFloat.fin (a - b) := by
  simp [PFloat.subP, PFloat.negP, PFloat.addP, sub_eq_add_neg]

theorem PFloat.geP_fin_fin (a b : ℚ) :
    PFloat.geP (PFloat.fin a) (PFloat.fin b) = decide (b ≤ a) := rfl

theorem PFloat.ltP_fin_fin (a b : ℚ) :
    PFloat.ltP (PFloat.fin a) (PFloat.fin b) = decide (a < b) := rfl

/-- Witness for C2: a call in which the full step (candidate `k0 = 0`)
satisfies both conditions and is returned after one evaluation. -/
theorem line_search_returns_first_satisfying_witness :
    PFloat.geP (PFloat.fin 1) (PFloat.fin (1 / 10000000)) = true ∧
    specAccept (fun _ => PFloat.fin 0) (fun _ => PFloat.fin 0) (PFloat.fin 1)
      [PFloat.fin 1] [PFloat.fin 1] (PFloat.fin 1) (PFloat.fin 1) 0 = true ∧
    (lineSearchD (f_barrier (fun _ => PFloat.fin 0) (fun _ => PFloat.fin 0) (PFloat.fin 1))
        [PFloat.fin 1] [PFloat.fin 1] (PFloat.fin 1) (PFloat.fin 1)).result
      = lsCand [PFloat.fin 1] [PFloat.fin 1] (PFloat.fin (4 / 5)) 0 ∧
    (lineSearchD (f_barrier (fun _ => PFloat.fin 0) (fun _ => PFloat.fin 0) (PFloat.fin 1))
        [PFloat.fin 1] [PFloat.fin 1] (PFloat.fin 1) (PFloat.fin 1)).evals
      = [lsCand [PFloat.fin 1] [PFloat.fin 1] (PFloat.fin (4 / 5)) 0] :=
  ⟨by norm_num [PFloat.geP_fin_fin],
   by
    norm_num [specAccept, PFloat.ltP_fin_fin, PFloat.geP_fin_fin, PFloat.subP_fin_fin,
      PFloat.powP, PFloat.mulP_fin_fin],
   (line_search_returns_first_satisfying (fun _ => PFloat.fin 0) (fun _ => PFloat.fin 0)
      (PFloat.fin 1) [PFloat.fin 1] [PFloat.fin 1] (PFloat.fin 1) (PFloat.fin 1) 0
      (by norm_num [PFloat.geP_fin_fin]) (by omega)
      (by
        norm_num [specAccept, PFloat.ltP_fin_fin, PFloat.geP_fin_fin, PFloat.subP_fin_fin,
          PFloat.powP, PFloat.mulP_fin_fin])
      (fun j hj => absurd hj (Nat.not_lt_zero j))).1,
   by
    rw [(line_search_returns_first_satisfying (fun _ => PFloat.fin 0) (fun _ => PFloat.fin 0)
      (PFloat.fin 1) [PFloat.fin 1] [PFloat.fin 1] (PFloat.fin 1) (PFloat.fin 1) 0
      (by norm_num [PFloat.geP_fin_fin]) (by omega)
      (by
        norm_num [specAccept, PFloat.ltP_fin_fin, PFloat.geP_fin_fin, PFloat.subP_fin_fin,
          PFloat.powP, PFloat.mulP_fin_fin])
      (fun j hj => absurd hj (Nat.not_lt_zero j))).2]
    rfl⟩

/-- Counterexample to C2 as stated: a call to `line_search` in which the
full-step candidate `k = 0` satisfies both the KL ceiling and the Armijo
condition, yet — because the supplied `expected_improvement` is `0`,
below `atol` — no candidate is evaluated at all and `x0` is returned
instead of the satisfying candidate. -/
theorem line_search_skips_satisfying_candidate :
    specAccept (fun _ => PFloat.fin 0) (fun _ => PFloat.fin 0) (PFloat.fin 1)
      [PFloat.fin 1] [PFloat.fin 1] (PFloat.fin 0) (PFloat.fin 1) 0 = true ∧
    (lineSearchD (f_barrier (fun _ => PFloat.fin 0) (fun _ => PFloat.fin 0) (PFloat.fin 1))
        [PFloat.fin 1] [PFloat.fin 1] (PFloat.fin 0) (PFloat.fin 1)).result
      = [PFloat.fin 1] ∧
    [PFloat.fin 1] ≠ lsCand [PFloat.fin 1] [PFloat.fin 1] (PFloat.fin (4 / 5)) 0 ∧
    (lineSearchD (f_barrier (fun _ => PFloat.fin 0) (fun _ => PFloat.fin 0) (PFloat.fin 1))
        [PFloat.fin 1] [PFloat.fin 1] (PFloat.fin 0) (PFloat.fin 1)).evals = [] := by
  have hg : PFloat.geP (PFloat.fin 0) (PFloat.fin (1 / 10000000)) = false := by
    norm_num [PFloat.geP_fin_fin]
  refine ⟨?_, ?_, ?_, ?_⟩
  · norm_num [specAccept, PFloat.ltP_fin_fin, PFloat.geP_fin_fin, PFloat.subP_fin_fin,
      PFloat.powP, PFloat.mulP_fin_fin]
  · unfold lineSearchD line_search
    simp only [Option.getD_some]
    rw [hg]
    rfl
  · norm_num [lsCand, vecSubP, scalMulP, PFloat.powP, PFloat.mulP_fin_fin,
      PFloat.subP_fin_fin, List.zipWith]
  · unfold lineSearchD line_search
    simp only [Option.getD_some]
    rw [hg]
    rfl

/-! ### C4: which variants check the KL constraint before committing -/

/-- Counterexample to C4 as stated: `tnpg` writes the natural-gradient
step `flat_params - descent_step` into the policy unconditionally.  At
old parameters `[0]` and descent step `[1]` the committed parameters
`[-1]` differ from the old ones while their realized KL divergence
(under the instance KL function `klProbe`, with `delta = 0.01`) is `1`,
far above the trust region — so the KL constraint was never enforced. -/
theorem tnpg_commit_ignores_kl :
    tnpgCommit [0] [1] ≠ [0] ∧ ¬ klProbe (tnpgCommit [0] [1]) < 1 / 100 := by
  constructor
  · norm_num [tnpgCommit, List.zipWith]
  · norm_num [tnpgCommit, klProbe, List.zipWith, List.map, List.foldl]

/-- C4 (amended): only `trpo` with `linesearch=True` enforces the
trust-region constraint before committing: the parameter vector written
back by the update phase is either the unchanged `x0` or a candidate
whose realized KL divergence (as evaluated by `f_barrier`) is strictly
below `delta`.  (`tnpg` and `natural` commit their steps with no KL
check, see the counterexample.) -/
theorem trpo_commit_within_kl (surr avgKl : Vec → PFloat) (delta : PFloat)
    (pol_grad dx x0 : Vec) :
    (trpoUpdateLS surr avgKl delta pol_grad dx x0).result = x0 ∨
    PFloat.ltP (avgKl ((trpoUpdateLS surr avgKl delta pol_grad dx x0).result)) delta
      = true := by
  unfold trpoUpdateLS lineSearchD line_search
  simp only [Option.getD_some]
  cases hg : PFloat.geP (dotP pol_grad dx) (PFloat.fin (1 / 10000000)) with
  | false => exact Or.inl rfl
  | true =>
    rcases h2 : (lsLoop (f_barrier surr avgKl delta) x0 dx (dotP pol_grad dx) (surr x0)
        (PFloat.fin (1 / 10)) (PFloat.fin (4 / 5)) 0 15).2 with _ | ⟨⟨x, le, la⟩⟩
    · exact Or.inl rfl
    · obtain ⟨j, hx, hacc⟩ := lsLoop_some_accept (f_barrier surr avgKl delta) x0 dx
        (dotP pol_grad dx) (surr x0) (PFloat.fin (1 / 10)) (PFloat.fin (4 / 5)) 15 0
        x le la h2
      right
      show PFloat.ltP (avgKl x) delta = true
      cases hb : PFloat.ltP (avgKl x) delta with
      | true => rfl
      | false =>
        exfalso
        rw [hx] at hb
        have hrej := lsAccept_false_of_kl_high surr avgKl delta x0 dx
          (dotP pol_grad dx) (surr x0) j hg hb
        exact absurd (hacc.symm.trans hrej) (by simp)

/-! ### C8: behaviour under non-finite values -/

/-- C8 (amended): the code contains no explicit detection of non-finite
values, but the IEEE comparison semantics of the line search reject them
in the propagation patterns that `trpo`'s own computations produce: if
the gradient/Fisher-vector-product non-finiteness reaches the expected
improvement as `nan` (any `nan` entry does, see
`dotP_nan_left`), or the realized KL divergence evaluates to `nan` or
`+inf` at every parameter vector, then every candidate is rejected, the
original parameters are returned (hence remain finite if they were), and
zero actual improvement is logged.  An infinite (`+inf`) expected
improvement combined with a `-inf` candidate objective escapes this and
can still commit a changed parameter vector (see the counterexample). -/
theorem trpo_nonfinite_rejected (surr avgKl : Vec → PFloat) (delta : PFloat)
    (pol_grad dx x0 : Vec)
    (h : dotP pol_grad dx = PFloat.nan ∨
      ∀ v : Vec, avgKl v = PFloat.nan ∨ avgKl v = PFloat.inf) :
    (trpoUpdateLS surr avgKl delta pol_grad dx x0).result = x0 ∧
    (trpoUpdateLS surr avgKl delta pol_grad dx x0).logActual = PFloat.fin 0 := by
  unfold trpoUpdateLS lineSearchD line_search
  simp only [Option.getD_some]
  rcases h with hnan | hkl
  · rw [hnan, PFloat.geP_nan_right]
    exact ⟨rfl, rfl⟩
  · cases hg : PFloat.geP (dotP pol_grad dx) (PFloat.fin (1 / 10000000)) with
    | false => exact ⟨rfl, rfl⟩
    | true =>
      have hnone := lsLoop_none (f_barrier surr avgKl delta) x0 dx (dotP pol_grad dx)
        (surr x0) (PFloat.fin (1 / 10)) (PFloat.fin (4 / 5)) 15 0 (fun i _ => by
          apply lsAccept_false_of_kl_high surr avgKl delta x0 dx (dotP pol_grad dx)
            (surr x0) (0 + i) hg
          rcases hkl (lsCand x0 dx (PFloat.fin (4 / 5)) (0 + i)) with hv | hv <;> rw [hv]
          · exact ltP_nan_left delta
          · exact ltP_inf_left delta)
      rw [hnone]
      exact ⟨rfl, rfl⟩

theorem foldl_addP_from_nan : ∀ l : List PFloat,
    l.foldl PFloat.addP PFloat.nan = PFloat.nan := by
  intro l
  induction l with
  | nil => rfl
  | cons x xs ih =>
    rw [List.foldl_cons, PFloat.addP_nan_left]
    exact ih

theorem foldl_addP_nan (l : List PFloat) : ∀ acc, PFloat.nan ∈ l →
    l.foldl PFloat.addP acc = PFloat.nan := by
  induction l with
  | nil => intro acc h; cases h
  | cons x xs ih =>
    intro acc h
    rcases List.mem_cons.mp h with rfl | hx
    · rw [List.foldl_cons, PFloat.addP_nan_right]
      exact foldl_addP_from_nan xs
    · rw [List.foldl_cons]
      exact ih _ hx

/-- Any `nan` entry of the gradient propagates to its dot product with
the (equally long) step vector, hence to the expected improvement
`pol_grad.dot(descent_step)`. -/
theorem dotP_nan_left (a b : Vec) (hlen : a.length = b.length)
    (hmem : PFloat.nan ∈ a) : dotP a b = PFloat.nan := by
  unfold dotP
  apply foldl_addP_nan
  clear * - hlen hmem
  induction a generalizing b with
  | nil => cases hmem
  | cons x xs ih =>
    cases b with
    | nil => simp at hlen
    | cons y ys =>
      rcases List.mem_cons.mp hmem with rfl | hx
      · rw [List.zipWith_cons_cons, PFloat.mulP_nan_left]
        exact List.mem_cons_self _ _
      · rw [List.zipWith_cons_cons]
        exact List.mem_cons_of_mem _ (ih ys (by simpa using hlen) hx)

/-- Witness for C8: with the realized KL divergence evaluating to `nan`
everywhere (a non-finite KL), the update phase returns the original
parameters and logs zero actual improvement. -/
theorem trpo_nonfinite_rejected_witness :
    (trpoUpdateLS (fun _ => PFloat.fin 0) (fun _ => PFloat.nan) (PFloat.fin (1 / 100))
        [PFloat.fin 1] [PFloat.fin 1] [PFloat.fin 0]).result = [PFloat.fin 0] ∧
    (trpoUpdateLS (fun _ => PFloat.fin 0) (fun _ => PFloat.nan) (PFloat.fin (1 / 100))
        [PFloat.fin 1] [PFloat.fin 1] [PFloat.fin 0]).logActual = PFloat.fin 0 :=
  ⟨(trpo_nonfinite_rejected (fun _ => PFloat.fin 0) (fun _ => PFloat.nan)
      (PFloat.fin (1 / 100)) [PFloat.fin 1] [PFloat.fin 1] [PFloat.fin 0]
      (Or.inr (fun _ => Or.inl rfl))).1,
   (trpo_nonfinite_rejected (fun _ => PFloat.fin 0) (fun _ => PFloat.nan)
      (PFloat.fin (1 / 100)) [PFloat.fin 1] [PFloat.fin 1] [PFloat.fin 0]
      (Or.inr (fun _ => Or.inl rfl))).2⟩

/-- Counterexample to C8 as stated: a non-finite value in the policy
gradient (`pol_grad = [inf]`) is not detected; the expected improvement
becomes `+inf`, which passes the `atol` guard, and the full-step
candidate — whose surrogate loss evaluates to `-inf` while its realized
KL (constantly `0`) is below `delta` — is accepted.  The committed
parameter vector differs from the parameters at the start of the
iteration, contradicting the claim that such an iteration always ends
with the parameters equal to their initial values. -/
theorem trpo_inf_gradient_changes_params :
    (trpoUpdateLS surrCex (fun _ => PFloat.fin 0) (PFloat.fin (1 / 100))
        [PFloat.inf] [PFloat.fin 1] [PFloat.fin 0]).result ≠ [PFloat.fin 0] := by
  have hdot : dotP [PFloat.inf] [PFloat.fin 1] = PFloat.inf := by
    norm_num [dotP, List.zipWith, PFloat.mulP, PFloat.addP]
  have hcand : lsCand [PFloat.fin 0] [PFloat.fin 1] (PFloat.fin (4 / 5)) 0
      = [PFloat.fin (-1)] := by
    norm_num [lsCand, vecSubP, scalMulP, PFloat.powP, PFloat.mulP_fin_fin,
      PFloat.subP_fin_fin, List.zipWith]
  have hacc : lsAccept (f_barrier surrCex (fun _ => PFloat.fin 0) (PFloat.fin (1 / 100)))
      [PFloat.fin 0] [PFloat.fin 1] (dotP [PFloat.inf] [PFloat.fin 1])
      (surrCex [PFloat.fin 0]) (PFloat.fin (1 / 10)) (PFloat.fin (4 / 5)) 0 = true := by
    unfold lsAccept
    rw [hcand, hdot]
    norm_num [surrCex, f_barrier, PFloat.ltP_fin_fin, PFloat.subP, PFloat.negP,
      PFloat.addP, PFloat.powP, PFloat.mulP, PFloat.geP, PFloat.leP]
  have hfirst := lsLoop_first (f_barrier surrCex (fun _ => PFloat.fin 0)
      (PFloat.fin (1 / 100))) [PFloat.fin 0] [PFloat.fin 1]
      (dotP [PFloat.inf] [PFloat.fin 1]) (surrCex [PFloat.fin 0])
      (PFloat.fin (1 / 10)) (PFloat.fin (4 / 5)) 0 15 0 (by omega)
      (by simpa using hacc) (fun j hj => absurd hj (Nat.not_lt_zero j))
  have hexp : PFloat.geP (dotP [PFloat.inf] [PFloat.fin 1])
      (PFloat.fin (1 / 10000000)) = true := by
    rw [hdot]
    rfl
  unfold trpoUpdateLS lineSearchD line_search
  simp only [Option.getD_some]
  rw [hexp, hfirst]
  show lsCand [PFloat.fin 0] [PFloat.fin 1] (PFloat.fin (4 / 5)) (0 + 0) ≠ [PFloat.fin 0]
  rw [Nat.add_zero, hcand]
  intro hcontra
  have : (PFloat.fin (-1 : ℚ)) = PFloat.fin 0 := by
    injection hcontra
  have hq : (-1 : ℚ) = 0 := by injection this
  norm_num at hq

/-! ### C1: the step-scale formula of `trpo.py` / `tnpg.py` -/

/-- Counterexample to C1 as stated: at `delta = 0.01` and `dᵀFd = 1`
(both positive), the scale the code computes differs from the spec's
`sqrt(2δ/(dᵀFd + ε))`: the code adds `1e-8` to the reciprocal `1/dᵀFd`
instead of adding it to `dᵀFd` before dividing. -/
theorem scale_ne_scaleSpec : scale (1 / 100) 1 ≠ scaleSpec (1 / 100) 1 := by
  have hlt : scaleSpec (1 / 100) 1 < scale (1 / 100) 1 := by
    unfold scale scaleSpec
    apply Real.sqrt_lt_sqrt
    · norm_num
    · norm_num
  exact ne_of_gt hlt

/-- C1 (amended): the computed scale is
`sqrt(2·δ·(1/(dᵀFd) + ε))` — equivalently, its square satisfies
`s² · dᵀFd = 2δ(1 + ε·dᵀFd)` — and for positive `δ` and `dᵀFd` it is
strictly larger than the spec's `sqrt(2δ/(dᵀFd + ε))`. -/
theorem scale_sq_identity (delta q : ℝ) (hd : 0 < delta) (hq : 0 < q) :
    (scale delta q) ^ 2 * q = 2 * delta * (1 + 1e-8 * q) ∧
    scaleSpec delta q < scale delta q := by
  have he : (1e-8 : ℝ) = 1 / 100000000 := by norm_num
  constructor
  · unfold scale
    rw [Real.sq_sqrt (by rw [he]; positivity)]
    field_simp
  · unfold scale scaleSpec
    apply Real.sqrt_lt_sqrt
    · rw [he]
      positivity
    · have he8 : (0 : ℝ) < 1e-8 := by norm_num
      have h1 : 1 / (q + 1e-8) < 1 / q := by
        apply one_div_lt_one_div_of_lt hq
        linarith
      have h2 : 1 / (q + 1e-8) < 1 / q + 1e-8 := by linarith
      calc 2 * delta / (q + 1e-8) = 2 * delta * (1 / (q + 1e-8)) :=
            div_eq_mul_one_div _ _
        _ < 2 * delta * (1 / q + 1e-8) := by
            apply mul_lt_mul_of_pos_left h2
            linarith

/-- Witness for C1 (amended) at `delta = 1`, `dᵀFd = 1`. -/
theorem scale_sq_identity_witness :
    (0 : ℝ) < 1 ∧
    (scale 1 1) ^ 2 * 1 = 2 * 1 * (1 + 1e-8 * 1) ∧
    scaleSpec 1 1 < scale 1 1 :=
  ⟨one_pos, (scale_sq_identity 1 1 one_pos one_pos).1, (scale_sq_identity 1 1 one_pos one_pos).2⟩

/-! ### C5: observation sets used by `F_0` and by `f_barrier` in `trpo.py` -/

/-- Counterexample to C5 as stated: at the default `kl_frac = 0.2` with
a batch of five observations and the identity permutation, `F_0` uses
the one-element subsample `[0]` while `f_barrier` evaluates the realized
KL over all five observations — the two observation sets differ
(observation `1` is used by the line search but not by the
Fisher-vector-product oracle). -/
theorem fvp_and_barrier_obs_differ :
    (1 ∈ fBarrierObs [0, 1, 2, 3, 4]) ∧
    (1 ∉ subsampObs (1 / 5) [0, 1, 2, 3, 4] [0, 1, 2, 3, 4]) ∧
    subsampObs (1 / 5) [0, 1, 2, 3, 4] [0, 1, 2, 3, 4] ≠ fBarrierObs [0, 1, 2, 3, 4] := by
  have harg : Int.toNat ⌊(1 / 5 : ℚ) * (([0, 1, 2, 3, 4] : List ℕ).length : ℚ)⌋ = 1 := by
    norm_num
  have h5 : subsampObs (1 / 5) [0, 1, 2, 3, 4] [0, 1, 2, 3, 4] = [0] := by
    unfold subsampObs
    rw [if_pos (by norm_num : (1 / 5 : ℚ) < 1), harg]
    rfl
  rw [h5]
  refine ⟨by decide, by decide, by decide⟩

/-- C5 (amended): the observation sets used by the Fisher-vector-product
oracle and by the line-search barrier coincide exactly when no
subsampling happens, i.e. when `kl_frac ≥ 1`; for `kl_frac < 1` the
oracle uses the `kl_frac` subsample while `f_barrier` uses the full
batch (see the counterexample).  Both use the same `old_dists` snapshot
taken within the iteration. -/
theorem subsamp_eq_barrier_obs_of_ge_one (kl_frac : ℚ) (all_obs perm : List ℕ)
    (h : 1 ≤ kl_frac) : subsampObs kl_frac all_obs perm = fBarrierObs all_obs := by
  unfold subsampObs fBarrierObs
  rw [if_neg (not_lt.mpr h)]

/-- Witness for C5 (amended) at `kl_frac = 1`. -/
theorem subsamp_eq_barrier_obs_witness :
    (1 : ℚ) ≤ 1 ∧ subsampObs 1 [7] [0] = fBarrierObs [7] :=
  ⟨le_refl 1, subsamp_eq_barrier_obs_of_ge_one 1 [7] [0] (le_refl 1)⟩

/-! ### C6: the Fisher-vector-product oracle `F_0` of `tnpg.py` -/

theorem foldl_add_zeros : ∀ (l : List ℚ) (c : ℚ),
    (∀ x ∈ l, x = (0 : ℚ)) → l.foldl (· + ·) c = c := by
  intro l
  induction l with
  | nil => intro c _; rfl
  | cons x xs ih =>
    intro c h
    rw [List.foldl_cons, h x (List.mem_cons_self _ _), add_zero]
    exact ih c (fun y hy => h y (List.mem_cons_of_mem _ hy))

theorem zipWith_mul_replicate_zero (r : List ℚ) : ∀ n,
    ∀ x ∈ List.zipWith (· * ·) r (List.replicate n (0 : ℚ)), x = 0 := by
  induction r with
  | nil => intro n x hx; simp at hx
  | cons a as ih =>
    intro n x hx
    cases n with
    | zero => simp at hx
    | succ n =>
      rw [List.replicate_succ, List.zipWith_cons_cons] at hx
      rcases List.mem_cons.mp hx with rfl | h
      · exact mul_zero a
      · exact ih n x h

theorem dotQ_replicate_zero (r : List ℚ) (n : ℕ) :
    dotQ r (List.replicate n 0) = 0 :=
  foldl_add_zeros _ 0 (zipWith_mul_replicate_zero r n)

theorem zipWith_add_replicate_zero : ∀ n,
    List.zipWith (· + ·) (List.replicate n (0 : ℚ)) (List.replicate n 0)
      = List.replicate n 0 := by
  intro n
  induction n with
  | zero => rfl
  | succ n ih => simp [List.replicate_succ, ih]

/-- C6: the Fisher-vector-product oracle applied to the zero direction
vector returns exactly the zero vector — the Hessian-vector part is
`H·0 = 0` and the damping contribution `0 * 1e-3` vanishes — for every
KL Hessian `H` (i.e. every observation subsample and policy state) of
matching dimension. -/
theorem F_0_zero_direction (H : List (List ℚ)) (n : ℕ) (h : H.length = n) :
    F_0 H (List.replicate n 0) = List.replicate n 0 := by
  unfold F_0 matVec
  have hm : H.map (fun row => dotQ row (List.replicate n 0)) = List.replicate n 0 := by
    calc H.map (fun row => dotQ row (List.replicate n 0))
        = H.map (fun _ => (0 : ℚ)) :=
          List.map_congr_left (fun row _ => dotQ_replicate_zero row n)
      _ = List.replicate H.length 0 := by rw [List.map_const']
      _ = List.replicate n 0 := by rw [h]
  have hmap : (List.replicate n (0 : ℚ)).map (fun x => x * (1 / 1000))
      = List.replicate n 0 := by
    rw [List.map_replicate, zero_mul]
  rw [hm, hmap, zipWith_add_replicate_zero]

/-- Witness for C6 with a concrete 2×2 Hessian. -/
theorem F_0_zero_direction_witness :
    ([[1, 2], [3, 4]] : List (List ℚ)).length = 2 ∧
    F_0 [[1, 2], [3, 4]] (List.replicate 2 0) = List.replicate 2 0 :=
  ⟨rfl, F_0_zero_direction [[1, 2], [3, 4]] 2 rfl⟩

/-! ### C7: checkpoint contents and resume index -/

/-- C7 (code bug in `tnpg.py`): evaluating the checkpoint bookkeeping at
the failing input — a `tnpg` run started with `last_iter = -1` whose
snapshot is taken during iteration `3` — shows the saved state carries
last-iteration index `-1`, so a reload resumes at iteration `0`, not
`4`.  `vanilla` (the sibling implementation) stores the current index,
resumes at `4`, and its saved blob (policy, baseline and optimizer
state) is reloaded intact from the index the restore path reads. -/
theorem tnpg_snapshot_resumes_at_zero :
    tnpgSavedLastIter (-1) 3 = -1 ∧
    resumeStart (tnpgSavedLastIter (-1) 3) = 0 ∧
    resumeStart (tnpgSavedLastIter (-1) 3) ≠ 3 + 1 ∧
    vanillaSavedLastIter 3 = 3 ∧
    resumeStart (vanillaSavedLastIter 3) = 3 + 1 ∧
    saverSave (fun _ => none) (vanillaSnapshotIndex 3) 42
      (resumeStart (vanillaSavedLastIter 3)) = some 42 := by
  refine ⟨rfl, by decide, by decide, rfl, by decide, by decide⟩

/-! ### C10: the `TotalNSamples` accounting of `trpo.py` -/

/-- C10: after every completed `trpo` iteration `updt` the logged
`TotalNSamples` equals `(updt+1)` times the requested batch size rounded
down to an exact multiple of `n_envs`: the per-iteration count
`batch - batch % n_envs` equals `n_envs * (batch / n_envs)`, is
divisible by `n_envs`, and never exceeds `batch`. -/
theorem totalNSamples_rounds_down (updt batch n_envs : ℕ) :
    totalNSamples updt batch n_envs = (updt + 1) * (n_envs * (batch / n_envs)) ∧
    n_envs ∣ (batch - batch % n_envs) ∧
    batch - batch % n_envs ≤ batch := by
  have hdm := Nat.div_add_mod batch n_envs
  have hsub : batch - batch % n_envs = n_envs * (batch / n_envs) := by omega
  exact ⟨by rw [totalNSamples, hsub], ⟨batch / n_envs, hsub⟩, Nat.sub_le _ _⟩
